import Mathlib

/-!
Verification development for the FiltroBox PII detection and redaction
front end.  The TypeScript sources are shallowly embedded: texts are
`List Char`, the JavaScript `String.prototype.split` / `Array.prototype.join`
pair used for global replacement is modelled by `jsSplit` / `joinWith`,
and the components (`analyzeText` in services/piiService.ts,
`dynamicSanitizedText` in components/AnalysisView.tsx, `handleSave` and
`handleTestRegex` in the rules configuration component, the URL checks of
SettingsView.tsx) become total Lean functions.  Network calls are
represented by an explicit outcome value (`BackendOutcome`), since the
embedded code only depends on the parsed response or on the fact that the
call failed.
-/

/-- Scanner behind JavaScript `s.split(sep)` for a non-empty separator,
over `List Char`.  The second argument is the number of characters still
to be skipped because they belong to an already recognised separator
occurrence.  In skip state `0`, if `sep` starts at the current position a
new (initially empty) piece is opened and the separator is consumed;
otherwise the current character is prepended to the first piece of the
recursive result. -/
def jsSplitAux (sep : List Char) : List Char → Nat → List (List Char)
  | [], _ => [[]]
  | _ :: rest, k+1 => jsSplitAux sep rest k
  | c :: rest, 0 =>
    if sep ≠ [] ∧ sep.isPrefixOf (c :: rest) then
      [] :: jsSplitAux sep rest (sep.length - 1)
    else
      (c :: (jsSplitAux sep rest 0).headD []) :: (jsSplitAux sep rest 0).tail

/-- JavaScript `s.split(sep)`.  For the empty separator JavaScript returns
the list of single-character strings (and `[]` on the empty string); for a
non-empty separator it performs the leftmost non-overlapping scan of
`jsSplitAux`. -/
def jsSplit (sep s : List Char) : List (List Char) :=
  if sep = [] then s.map (fun c => [c]) else jsSplitAux sep s 0

/-- JavaScript `parts.join(r)`. -/
def joinWith (r : List Char) : List (List Char) → List Char
  | [] => []
  | [p] => p
  | p :: q :: ps => p ++ r ++ joinWith r (q :: ps)

/-- `s.split(t).join(r)` — the global literal replacement idiom used
throughout the sources (piiService.ts line 219, AnalysisView.tsx line 75). -/
def replaceAllJS (t r s : List Char) : List Char :=
  joinWith r (jsSplit t s)

/-- Number of positions of `s` at which `t` starts (all positions,
including overlapping ones).  Used to state "occurs exactly once". -/
def occCount (t s : List Char) : Nat :=
  (List.range (s.length + 1)).countP (fun i => decide (t <+: s.drop i))

/-- Sensitivity levels, from types.ts. -/
inductive SensitivityLevel where
  | HIGH
  | MEDIUM
  | LOW
deriving DecidableEq, Repr

/-- PII type tags, from types.ts. -/
inductive PiiType where
  | EMAIL
  | PHONE
  | CREDIT_CARD
  | SSN
  | API_KEY
  | NAME
  | LOCATION
  | IP_ADDRESS
  | CUSTOM
deriving DecidableEq, Repr

/-- A detected entity, from types.ts.  The source id is the string
`entity-$\x7bindex\x7d-$\x7bDate.now()\x7d`; the timestamp is constant within a scan, so
the numeric index faithfully captures identity and uniqueness of ids inside
one result and is used here directly.  The source field `end` is spelled
`endPos` (`end` is reserved in Lean); both offsets are whatever the scan
stores. -/
structure PiiEntity where
  id : Nat
  text : List Char
  type : PiiType
  level : SensitivityLevel
  start : Nat
  endPos : Nat
  replacement : List Char
deriving DecidableEq, Repr

/-- The result object built by `analyzeText`, from types.ts. -/
structure AnalysisResult where
  originalText : List Char
  sanitizedText : List Char
  entities : List PiiEntity
  riskScore : Nat
  processingTime : Nat
  summary : List Char
  classification : List Char
deriving DecidableEq, Repr

/-- One entity of the parsed backend JSON (`data.entities[i]`): free-form
label strings, all fields possibly missing. -/
structure RawEntity where
  text : List Char
  type : Option (List Char)
  sensitivity : Option (List Char)
  replacement : Option (List Char)
deriving DecidableEq, Repr

/-- The parsed backend JSON body (`data`). -/
structure RawPayload where
  entities : List RawEntity
  riskScore : Option Nat
  summary : Option (List Char)
  classification : Option (List Char)
deriving DecidableEq, Repr

/-- Outcome of the inference call inside `analyzeText`'s `try` block:
either a parsed payload, or any failure (thrown error, non-success HTTP
status, malformed JSON, missing settings) with the error message that the
`catch` block interpolates into the summary. -/
inductive BackendOutcome where
  | ok (payload : RawPayload)
  | err (msg : List Char)
deriving DecidableEq, Repr

/-- JavaScript `str.toUpperCase()` (ASCII fragment). -/
def jsToUpper (s : List Char) : List Char := s.map Char.toUpper

/-- JavaScript `a || b` for strings: `b` when `a` is `undefined` or empty. -/
def jsOr (o : Option (List Char)) (d : List Char) : List Char :=
  match o with
  | some s => if s = [] then d else s
  | none => d

/-- piiService.ts lines 284-296: map a free-form backend type label into
the closed `PiiType` enumeration.  `none`/empty models the JS falsy check
`if (!str)`. -/
def mapStringToPiiType : Option (List Char) → PiiType
  | none => PiiType.CUSTOM
  | some s =>
    if s = [] then PiiType.CUSTOM
    else
      let upper := jsToUpper s
      if "EMAIL".data <:+: upper then PiiType.EMAIL
      else if "PHONE".data <:+: upper then PiiType.PHONE
      else if "CARD".data <:+: upper then PiiType.CREDIT_CARD
      else if "SSN".data <:+: upper then PiiType.SSN
      else if "KEY".data <:+: upper ∨ "TOKEN".data <:+: upper then PiiType.API_KEY
      else if "IP".data <:+: upper then PiiType.IP_ADDRESS
      else if "NAME".data <:+: upper ∨ "PERSON".data <:+: upper then PiiType.NAME
      else if "LOC".data <:+: upper ∨ "ADDRESS".data <:+: upper then PiiType.LOCATION
      else PiiType.CUSTOM

/-- piiService.ts lines 298-304: map a free-form sensitivity label into
`SensitivityLevel`, defaulting to LOW. -/
def mapStringToSensitivity : Option (List Char) → SensitivityLevel
  | none => SensitivityLevel.LOW
  | some s =>
    if s = [] then SensitivityLevel.LOW
    else
      let upper := jsToUpper s
      if upper = "HIGH".data then SensitivityLevel.HIGH
      else if upper = "MEDIUM".data then SensitivityLevel.MEDIUM
      else SensitivityLevel.LOW

/-- The default replacement `[REDACTED $\x7be.type\x7d]` (a missing type label
prints as `undefined` in the template string). -/
def defaultReplacement (t : Option (List Char)) : List Char :=
  "[REDACTED ".data ++ (match t with | some s => s | none => "undefined".data) ++ "]".data

/-- piiService.ts lines 206-214: normalization of one raw backend entity at
a given index.  Offsets are stored as the placeholders 0/0; the replacement
falls back to the default when missing or empty (JS `||`). -/
def normalizeEntity (index : Nat) (e : RawEntity) : PiiEntity :=
  { id := index
    text := e.text
    type := mapStringToPiiType e.type
    level := mapStringToSensitivity e.sensitivity
    start := 0
    endPos := 0
    replacement :=
      match e.replacement with
      | some r => if r = [] then defaultReplacement e.type else r
      | none => defaultReplacement e.type }

/-- `(data.entities || []).map(...)` with the running index. -/
def normalizeEntities (l : List RawEntity) : List PiiEntity :=
  l.enum.map (fun ie => normalizeEntity ie.1 ie.2)

/-- piiService.ts lines 216-220: `entities.forEach(...)` applying the
global `split`/`join` replacement in backend entity order. -/
def sanitizeFold (entities : List PiiEntity) (text : List Char) : List Char :=
  entities.foldl (fun acc e => replaceAllJS e.text e.replacement acc) text

/-- piiService.ts lines 167-246: `analyzeText`, over the outcome of the
backend call.  The success branch normalizes entities, folds the global
replacement over them and wraps the payload fields (with JS `||` defaults);
the `catch` branch returns the degraded result.  `processingTime` is a
wall-clock measurement and is modelled as 0. -/
def analyzeText (text : List Char) (outcome : BackendOutcome) : AnalysisResult :=
  match outcome with
  | .err msg =>
    { originalText := text
      sanitizedText := text
      entities := []
      riskScore := 0
      processingTime := 0
      summary := "Analysis failed: ".data ++ msg
      classification := "Error".data }
  | .ok data =>
    let entities := normalizeEntities data.entities
    { originalText := text
      sanitizedText := sanitizeFold entities text
      entities := entities
      riskScore := data.riskScore.getD 0
      processingTime := 0
      summary := jsOr data.summary "No summary available.".data
      classification := jsOr data.classification "Unknown Data Type".data }

/-- One insertion step of the stable descending-by-text-length sort that
models `[...result.entities].sort((a, b) => b.text.length - a.text.length)`
(JavaScript sort is stable, so the comparator determines the result up to
stability; a later element is placed after all earlier elements of equal
length). -/
def insertByLen (e : PiiEntity) : List PiiEntity → List PiiEntity
  | [] => [e]
  | b :: l => if e.text.length ≤ b.text.length then b :: insertByLen e l else e :: b :: l

/-- Stable sort by descending `text.length` (see `insertByLen`). -/
def sortByTextLenDesc (l : List PiiEntity) : List PiiEntity :=
  l.foldl (fun acc e => insertByLen e acc) []

/-- One step of the `sortedByLen.forEach` loop in `dynamicSanitizedText`:
replace globally if the entity id is in the active set, else skip. -/
def renderStep (activeEntities : List Nat) (acc : List Char) (e : PiiEntity) : List Char :=
  if e.id ∈ activeEntities then replaceAllJS e.text e.replacement acc else acc

/-- AnalysisView.tsx lines 67-79: the redaction engine.  Entities are
sorted by descending text length; each active entity's text is globally
replaced by its replacement in the working copy. -/
def dynamicSanitizedText (result : AnalysisResult) (activeEntities : List Nat) : List Char :=
  (sortByTextLenDesc result.entities).foldl (renderStep activeEntities) result.originalText

/-- A detection rule, from types.ts (the `Rule` interface). -/
structure Rule where
  id : List Char
  name : List Char
  type : PiiType
  enabled : Bool
  description : List Char
  pattern : Option (List Char)
  level : SensitivityLevel
deriving DecidableEq, Repr

/-- Item of a regex character class: a single character or a range. -/
inductive ClsItem where
  | ch (c : Char)
  | range (lo hi : Char)
deriving DecidableEq, Repr

/-- Abstract syntax of the JavaScript regular-expression fragment used by
the rules component (literals, `.`, `\d`, escaped literals, character
classes, grouping, alternation and the quantifiers `*` `+` `?`
`{n}` `{n,}` `{n,m}`). -/
inductive Reg where
  | emp
  | lit (c : Char)
  | dot
  | digit
  | cls (neg : Bool) (items : List ClsItem)
  | seq (a b : Reg)
  | alt (a b : Reg)
  | rep (a : Reg) (lo : Nat) (hi : Option Nat)
deriving DecidableEq, Repr

/-- Parse the items of a character class up to the closing bracket.
An unterminated class is a syntax error, as in JavaScript. -/
def parseClsItems : List Char → Option (List ClsItem × List Char)
  | [] => none
  | ']' :: s => some ([], s)
  | '\\' :: c :: s => do
    let (is, s') ← parseClsItems s
    return (ClsItem.ch c :: is, s')
  | a :: '-' :: ']' :: s => some ([ClsItem.ch a, ClsItem.ch '-'], s)
  | a :: '-' :: b :: s => do
    let (is, s') ← parseClsItems s
    return (ClsItem.range a b :: is, s')
  | a :: s => do
    let (is, s') ← parseClsItems s
    return (ClsItem.ch a :: is, s')

/-- Parse a non-empty run of decimal digits. -/
def parseDigits (s : List Char) : Option (Nat × List Char) :=
  let ds := s.takeWhile Char.isDigit
  if ds = [] then none
  else some (ds.foldl (fun n c => n * 10 + (c.toNat - 48)) 0, s.drop ds.length)

/-- Attach an optional postfix quantifier to a parsed atom.  A `{` that
does not start a well-formed counted quantifier is left unconsumed (it is
then read as a literal, as JavaScript does). -/
def parseQuant (a : Reg) : List Char → (Reg × List Char)
  | '*' :: s => (Reg.rep a 0 none, s)
  | '+' :: s => (Reg.rep a 1 none, s)
  | '?' :: s => (Reg.rep a 0 (some 1), s)
  | '{' :: s =>
    (match parseDigits s with
     | some (n, rest) =>
       match rest with
       | '}' :: s2 => (Reg.rep a n (some n), s2)
       | ',' :: '}' :: s2 => (Reg.rep a n none, s2)
       | ',' :: rest2 =>
         (match parseDigits rest2 with
          | some (m, '}' :: s3) => (Reg.rep a n (some m), s3)
          | _ => (a, '{' :: s))
       | _ => (a, '{' :: s)
     | none => (a, '{' :: s))
  | s => (a, s)

mutual

/-- Alternation level of the recursive-descent pattern reader; the fuel
argument only bounds recursion depth and is chosen large enough in
`parseRegex`. -/
def parseAlt : Nat → List Char → Option (Reg × List Char)
  | 0, _ => none
  | fuel+1, s => do
    let (r, s1) ← parseSeq fuel s
    match s1 with
    | '|' :: s2 => do
      let (r2, s3) ← parseAlt fuel s2
      return (Reg.alt r r2, s3)
    | _ => return (r, s1)

/-- Concatenation level. -/
def parseSeq : Nat → List Char → Option (Reg × List Char)
  | 0, _ => none
  | fuel+1, s =>
    match s with
    | [] => some (Reg.emp, [])
    | ')' :: _ => some (Reg.emp, s)
    | '|' :: _ => some (Reg.emp, s)
    | _ => do
      let (a, s1) ← parseAtomQ fuel s
      let (b, s2) ← parseSeq fuel s1
      return (Reg.seq a b, s2)

/-- An atom together with its optional quantifier. -/
def parseAtomQ : Nat → List Char → Option (Reg × List Char)
  | 0, _ => none
  | fuel+1, s => do
    let (a, s1) ← parseAtom fuel s
    return parseQuant a s1

/-- A single atom: group, class, escape, dot or literal.  A dangling
quantifier, an unmatched closing construct or an unterminated group is a
syntax error. -/
def parseAtom : Nat → List Char → Option (Reg × List Char)
  | 0, _ => none
  | fuel+1, s =>
    match s with
    | [] => none
    | '(' :: s1 => do
      let (r, s2) ← parseAlt fuel s1
      match s2 with
      | ')' :: s3 => return (r, s3)
      | _ => none
    | '[' :: '^' :: s1 => do
      let (is, s2) ← parseClsItems s1
      return (Reg.cls true is, s2)
    | '[' :: s1 => do
      let (is, s2) ← parseClsItems s1
      return (Reg.cls false is, s2)
    | '\\' :: c :: s1 =>
      if c = 'd' then some (Reg.digit, s1) else some (Reg.lit c, s1)
    | '\\' :: [] => none
    | '.' :: s1 => some (Reg.dot, s1)
    | '*' :: _ => none
    | '+' :: _ => none
    | '?' :: _ => none
    | ')' :: _ => none
    | '|' :: _ => none
    | c :: s1 => some (Reg.lit c, s1)

end

/-- `new RegExp(pat)`: parse the whole pattern; failure models the thrown
`SyntaxError`. -/
def parseRegex (pat : List Char) : Option Reg :=
  match parseAlt (4 * pat.length + 8) pat with
  | some (r, []) => some r
  | _ => none

/-- Whether `new RegExp(pat)` succeeds. -/
def jsRegexValid (pat : List Char) : Bool := (parseRegex pat).isSome

/-- Character-class membership test. -/
def charInCls (c : Char) : List ClsItem → Bool
  | [] => false
  | ClsItem.ch a :: is => c = a || charInCls c is
  | ClsItem.range a b :: is => (a ≤ c && c ≤ b) || charInCls c is

/-- Backtracking matcher in continuation style; the fuel bounds the
recursion and is chosen large enough in `regexTest`. -/
def matchR : Nat → Reg → List Char → (List Char → Bool) → Bool
  | 0, _, _, _ => false
  | fuel+1, r, s, k =>
    match r with
    | .emp => k s
    | .lit c =>
      match s with
      | c' :: s' => c' = c && k s'
      | [] => false
    | .dot =>
      match s with
      | _ :: s' => k s'
      | [] => false
    | .digit =>
      match s with
      | c' :: s' => c'.isDigit && k s'
      | [] => false
    | .cls neg items =>
      match s with
      | c' :: s' => (charInCls c' items != neg) && k s'
      | [] => false
    | .seq a b => matchR fuel a s (fun s' => matchR fuel b s' k)
    | .alt a b => matchR fuel a s k || matchR fuel b s k
    | .rep a lo hi =>
      match lo, hi with
      | 0, some 0 => k s
      | 0, some (m+1) =>
        matchR fuel a s (fun s' => matchR fuel (.rep a 0 (some m)) s' k) || k s
      | 0, none =>
        matchR fuel a s (fun s' => matchR fuel (.rep a 0 none) s' k) || k s
      | n+1, _ =>
        matchR fuel a s (fun s' => matchR fuel (.rep a n (hi.map (fun m => m - 1))) s' k)

/-- Does the expression match starting exactly here? -/
def matchHere (r : Reg) (fuel : Nat) (s : List Char) : Bool :=
  matchR fuel r s (fun _ => true)

/-- `regex.exec(s) !== null`: try every start position. -/
def regexSearchAux (r : Reg) (fuel : Nat) : List Char → Bool
  | [] => matchHere r fuel []
  | c :: rest => matchHere r fuel (c :: rest) || regexSearchAux r fuel rest

/-- A generous fuel bound for `matchR`. -/
def regexFuel (pat s : List Char) : Nat :=
  (pat.length + s.length + 4) * (s.length + 4) * 4

/-- `new RegExp(pat).exec(s) !== null`, or `false` when the pattern does
not compile. -/
def regexTest (pat s : List Char) : Bool :=
  match parseRegex pat with
  | some r => regexSearchAux r (regexFuel pat s) s
  | none => false

/-- JavaScript `String.prototype.trim`. -/
def jsTrim (s : List Char) : List Char :=
  ((s.dropWhile Char.isWhitespace).reverse.dropWhile Char.isWhitespace).reverse

/-- Outcome of the `handleSave` validation in the rules component:
which field errors fire, and whether the rule is saved (`onAdd`/`onUpdate`
reached). -/
structure SaveOutcome where
  nameError : Bool
  patternError : Bool
  saved : Bool
deriving DecidableEq, Repr

/-- RulesConfig `handleSave` (unnamed/part_001 lines 142-169): an empty
(after trim) name is a validation error; a pattern is validated through
`new RegExp` only when its trimmed form is non-empty; the rule is saved
only when no error fired. -/
def handleSave (name pattern : List Char) : SaveOutcome :=
  let nameErr : Bool := decide (jsTrim name = [])
  let patErr : Bool := decide (jsTrim pattern ≠ []) && !(jsRegexValid pattern)
  { nameError := nameErr, patternError := patErr, saved := !nameErr && !patErr }

/-- RulesConfig `handleTestRegex` (unnamed/part_001 lines 93-114): whether
the tester reports a match.  Empty pattern, empty sample and invalid
pattern all report no match (with different messages, not modelled). -/
def handleTestRegex (pattern testData : List Char) : Bool :=
  if pattern = [] then false
  else if testData = [] then false
  else regexTest pattern testData

/-- Characters allowed in a URL scheme after the initial letter. -/
def isSchemeChar (c : Char) : Bool :=
  c.isAlphanum || c = '+' || c = '-' || c = '.'

/-- Success of the browser `new URL(s)` constructor for an absolute URL,
approximated as the presence of a well-formed scheme prefix
(letter, then scheme characters, then a colon).  This models the host
environment, not repository code; it is faithful on the URLs appearing in
this development. -/
def isValidUrlModel (s : List Char) : Bool :=
  match s with
  | [] => false
  | c :: rest =>
    c.isAlpha &&
      (match rest.drop ((rest.takeWhile isSchemeChar).length) with
       | ':' :: _ => true
       | _ => false)

/-- SettingsView.tsx lines 44-55: the `urlError` state after the
validation effect ran on the current URL. -/
def urlError (url : List Char) : Option (List Char) :=
  if url = [] then some "URL is required".data
  else if isValidUrlModel url then none
  else some "Invalid URL format".data

/-- SettingsView.tsx lines 74-76: `fetchModels` returns before issuing the
request exactly when `urlError` is set. -/
def fetchModelsAttemptsRequest (url : List Char) : Bool :=
  (urlError url).isNone

/-- Local-engine settings, from types.ts. -/
structure OllamaSettings where
  url : List Char
  model : List Char
  apiKey : Option (List Char)
deriving DecidableEq, Repr

/-- piiService.ts lines 178-182: the scan path throws (and degrades)
before contacting the local engine only when the URL or the model name is
missing; otherwise `analyzeWithOllama` is invoked and issues the fetch. -/
def scanAttemptsOllamaRequest (settings : OllamaSettings) : Bool :=
  decide (settings.url ≠ []) && decide (settings.model ≠ [])

/-- `settings.url.replace(/\/$/, '')`. -/
def stripTrailingSlash (url : List Char) : List Char :=
  if url.getLast? = some '/' then url.dropLast else url

/-- The URL targeted by `analyzeWithOllama` (piiService.ts line 256). -/
def ollamaGenerateUrl (settings : OllamaSettings) : List Char :=
  stripTrailingSlash settings.url ++ "/api/generate".data

/-- A raw pattern-rule match, from the spec (§4.2). -/
structure RawMatch where
  text : List Char
  type : PiiType
  level : SensitivityLevel
  start : Nat
  endPos : Nat
deriving DecidableEq, Repr

/-- Start offsets of the non-overlapping leftmost occurrences, recovered
from the split pieces. -/
def matchPositionsAux (patLen : Nat) : List (List Char) → Nat → List Nat
  | [], _ => []
  | [_], _ => []
  | p :: q :: ps, acc =>
    (acc + p.length) :: matchPositionsAux patLen (q :: ps) (acc + p.length + patLen)

/-- All non-overlapping leftmost occurrences of a literal pattern. -/
def literalMatchPositions (pat s : List Char) : List Nat :=
  matchPositionsAux pat.length (jsSplit pat s) 0

/-- Modelled from the spec: §4.2 Pattern Matcher, which has no
implementation under src/ (the scan pipeline never consults the rules).
Restricted to rules whose pattern is a literal string without regex
metacharacters, for which JavaScript global regex matching coincides with
leftmost non-overlapping literal substring search.  Only rules with
`enabled = true` and a non-empty pattern participate, per the spec. -/
def patternMatcherLiteral (rules : List Rule) (text : List Char) : List RawMatch :=
  (rules.filter (fun r => r.enabled && !(r.pattern.getD []).isEmpty)).bind
    (fun r =>
      (literalMatchPositions (r.pattern.getD []) text).map
        (fun i =>
          { text := r.pattern.getD []
            type := r.type
            level := r.level
            start := i
            endPos := i + (r.pattern.getD []).length }))

/-- Fixture: an enabled custom rule with a literal pattern, used with the
spec-modelled Pattern Matcher. -/
def secretRule : Rule :=
  { id := "custom-1".data, name := "Secret".data, type := PiiType.CUSTOM,
    enabled := true, description := "internal".data,
    pattern := some "SECRET".data, level := SensitivityLevel.HIGH }

/-- Fixture: an enabled email rule with a literal pattern. -/
def emailRule : Rule :=
  { id := "email-1".data, name := "Email".data, type := PiiType.EMAIL,
    enabled := true, description := "d".data,
    pattern := some "a@b.com".data, level := SensitivityLevel.HIGH }

/-- Fixture: backend payload carrying one email entity at MEDIUM. -/
def emailPayload : RawPayload :=
  { entities := [{ text := "a@b.com".data, type := some "EMAIL".data,
                   sensitivity := some "MEDIUM".data, replacement := some "[EMAIL]".data }],
    riskScore := some 10, summary := some "summary".data,
    classification := some "Email Thread".data }

/-- Fixture: payload whose two nested texts arrive in ascending length
order (backend order differs from descending-length order). -/
def nestedPayload : RawPayload :=
  { entities := [{ text := "ab".data, type := some "NAME".data,
                   sensitivity := some "HIGH".data, replacement := some "X".data },
                 { text := "abc".data, type := some "NAME".data,
                   sensitivity := some "LOW".data, replacement := some "Y".data }],
    riskScore := some 50, summary := some "s".data, classification := some "c".data }

/-- Fixture: the same two entities already in descending length order. -/
def sortedPayload : RawPayload :=
  { entities := [{ text := "abc".data, type := some "NAME".data,
                   sensitivity := some "LOW".data, replacement := some "Y".data },
                 { text := "ab".data, type := some "NAME".data,
                   sensitivity := some "HIGH".data, replacement := some "X".data }],
    riskScore := some 50, summary := some "s".data, classification := some "c".data }

/-- Fixture: the spec's short phone entity. -/
def phoneShort : PiiEntity :=
  { id := 0, text := "555".data, type := PiiType.PHONE, level := SensitivityLevel.HIGH,
    start := 0, endPos := 0, replacement := "[PHONE]".data }

/-- Fixture: the spec's long phone entity, with a backend-suggested
replacement that echoes the matched text. -/
def phoneLongEcho : PiiEntity :=
  { id := 1, text := "555-1234".data, type := PiiType.PHONE, level := SensitivityLevel.HIGH,
    start := 0, endPos := 0, replacement := "555-1234".data }

/-- Fixture: the spec's long phone entity with the usual tag replacement. -/
def phoneLong : PiiEntity :=
  { id := 1, text := "555-1234".data, type := PiiType.PHONE, level := SensitivityLevel.HIGH,
    start := 0, endPos := 0, replacement := "[PHONE]".data }

/-- Fixture: result whose long entity's replacement echoes its text. -/
def echoResult : AnalysisResult :=
  { originalText := "555-1234".data, sanitizedText := "555-1234".data,
    entities := [phoneShort, phoneLongEcho], riskScore := 10, processingTime := 0,
    summary := "s".data, classification := "c".data }

/-- Fixture: result for the well-behaved phone example. -/
def phoneResult : AnalysisResult :=
  { originalText := "Call 555-1234 now".data, sanitizedText := "Call 555-1234 now".data,
    entities := [phoneShort, phoneLong], riskScore := 10, processingTime := 0,
    summary := "s".data, classification := "c".data }

/-- Fixture: a single email entity. -/
def emailEntity : PiiEntity :=
  { id := 0, text := "a@b.com".data, type := PiiType.EMAIL, level := SensitivityLevel.HIGH,
    start := 0, endPos := 0, replacement := "[EMAIL]".data }

/-- Fixture: result holding exactly the email entity, whose text occurs
exactly once in the original text. -/
def emailResult : AnalysisResult :=
  { originalText := "Contact a@b.com now".data, sanitizedText := "Contact [EMAIL] now".data,
    entities := [emailEntity], riskScore := 10, processingTime := 0,
    summary := "s".data, classification := "c".data }

/-- In skip state `k` the scanner simply discards `k` characters. -/
theorem jsSplitAux_skip (sep : List Char) :
    ∀ (k : Nat) (s : List Char), jsSplitAux sep s k = jsSplitAux sep (s.drop k) 0 := by
  intro k
  induction k with
  | zero => intro s; simp
  | succ k ih =>
    intro s
    cases s with
    | nil => simp [jsSplitAux]
    | cons c rest => simpa [jsSplitAux] using ih rest

/-- The scanner never returns an empty list of pieces. -/
theorem jsSplitAux_ne_nil (sep s : List Char) : jsSplitAux sep s 0 ≠ [] := by
  cases s with
  | nil => simp [jsSplitAux]
  | cons c rest =>
    unfold jsSplitAux
    split <;> simp

/-- The first piece produced by the scanner is a prefix of the input. -/
theorem jsSplitAux_head_prefix (sep : List Char) :
    ∀ (s p : List Char) (ps : List (List Char)),
      jsSplitAux sep s 0 = p :: ps → p <+: s := by
  intro s
  induction s with
  | nil =>
    intro p ps h
    simp [jsSplitAux] at h
    obtain ⟨h1, -⟩ := h
    subst h1
    exact ⟨[], rfl⟩
  | cons c rest ih =>
    intro p ps h
    by_cases hcond : sep ≠ [] ∧ sep.isPrefixOf (c :: rest)
    · rw [jsSplitAux, if_pos hcond] at h
      obtain ⟨h1, _⟩ := List.cons_eq_cons.mp h
      exact h1 ▸ ⟨c :: rest, rfl⟩
    · rw [jsSplitAux, if_neg hcond] at h
      obtain ⟨h1, _⟩ := List.cons_eq_cons.mp h
      cases hrec : jsSplitAux sep rest 0 with
      | nil => exact absurd hrec (jsSplitAux_ne_nil sep rest)
      | cons p0 ps0 =>
        rw [hrec] at h1
        obtain ⟨tl, htl⟩ := ih p0 ps0 hrec
        refine h1 ▸ ⟨tl, ?_⟩
        simp [← htl]

/-- No piece produced by the scanner contains an occurrence of the
separator: occurrences are always recognised and cut out. -/
theorem jsSplitAux_pieces_no_occ (sep : List Char) (hsep : sep ≠ []) :
    ∀ (n : Nat) (s : List Char), s.length ≤ n →
      ∀ p ∈ jsSplitAux sep s 0, ¬ sep <:+: p := by
  intro n
  induction n with
  | zero =>
    intro s hs p hp
    have hnil : s = [] := List.eq_nil_of_length_eq_zero (Nat.le_zero.mp hs)
    subst hnil
    simp [jsSplitAux] at hp
    subst hp
    intro hinf
    exact hsep (List.sublist_nil.mp hinf.sublist)
  | succ n ih =>
    intro s hs p hp
    cases s with
    | nil =>
      simp [jsSplitAux] at hp
      subst hp
      intro hinf
      exact hsep (List.sublist_nil.mp hinf.sublist)
    | cons c rest =>
      have hrest : rest.length ≤ n := by simp at hs; omega
      by_cases hcond : sep ≠ [] ∧ sep.isPrefixOf (c :: rest)
      · rw [jsSplitAux, if_pos hcond] at hp
        rcases List.mem_cons.mp hp with rfl | hp
        · intro hinf
          exact hsep (List.sublist_nil.mp hinf.sublist)
        · rw [jsSplitAux_skip] at hp
          have hlen : (rest.drop (sep.length - 1)).length ≤ n :=
            le_trans (by simp) hrest
          exact ih _ hlen p hp
      · rw [jsSplitAux, if_neg hcond] at hp
        have hnpre : ¬ sep <+: (c :: rest) := by
          intro hpre
          exact hcond ⟨hsep, List.isPrefixOf_iff_prefix.mpr hpre⟩
        cases hrec : jsSplitAux sep rest 0 with
        | nil => exact absurd hrec (jsSplitAux_ne_nil sep rest)
        | cons p0 ps0 =>
          rw [hrec] at hp
          simp only [List.headD_cons, List.tail_cons] at hp
          rcases List.mem_cons.mp hp with rfl | hp
          · intro hinf
            rcases List.infix_cons_iff.mp hinf with hpre | hinf2
            · have hp0 : p0 <+: rest := jsSplitAux_head_prefix sep rest p0 ps0 hrec
              have hcc : (c :: p0) <+: (c :: rest) := List.cons_prefix_cons.mpr ⟨rfl, hp0⟩
              exact hnpre (hpre.trans hcc)
            · exact ih rest hrest p0 (by rw [hrec]; exact List.mem_cons_self _ _) hinf2
          · exact ih rest hrest p (by rw [hrec]; exact List.mem_cons_of_mem _ hp)

theorem joinWith_cons_of_ne_nil (r p : List Char) (ps : List (List Char)) (h : ps ≠ []) :
    joinWith r (p :: ps) = p ++ r ++ joinWith r ps := by
  cases ps with
  | nil => exact absurd rfl h
  | cons q ps' => rfl

/-- If the separator occurs nowhere in the input, the scan returns the
input as a single piece. -/
theorem jsSplitAux_of_not_infix (sep : List Char) (hsep : sep ≠ []) :
    ∀ (s : List Char), ¬ sep <:+: s → jsSplitAux sep s 0 = [s] := by
  intro s
  induction s with
  | nil => intro _; simp [jsSplitAux]
  | cons c rest ih =>
    intro h
    have hcond : ¬ (sep ≠ [] ∧ sep.isPrefixOf (c :: rest)) := by
      rintro ⟨-, hpre⟩
      exact h (List.isPrefixOf_iff_prefix.mp hpre).isInfix
    rw [jsSplitAux, if_neg hcond, ih (fun hi => h (List.infix_cons hi))]
    rfl

/-- If the separator first occurs exactly after the prefix `p`, the scan
cuts there. -/
theorem jsSplitAux_first_occ (sep : List Char) (hsep : sep ≠ []) :
    ∀ (p q : List Char),
      (∀ i, i < p.length → ¬ sep <+: (p ++ sep ++ q).drop i) →
      jsSplitAux sep (p ++ sep ++ q) 0 = p :: jsSplitAux sep q 0 := by
  intro p
  induction p with
  | nil =>
    intro q _
    cases sep with
    | nil => exact absurd rfl hsep
    | cons d sep' =>
      have hpre : (d :: sep').isPrefixOf (d :: (sep' ++ q)) :=
        List.isPrefixOf_iff_prefix.mpr ⟨q, by simp⟩
      rw [show ([] : List Char) ++ (d :: sep') ++ q = d :: (sep' ++ q) by simp]
      rw [jsSplitAux, if_pos ⟨hsep, hpre⟩, jsSplitAux_skip]
      simp [List.drop_left']

  | cons a p' ih =>
    intro q hfirst
    have h0 : ¬ sep <+: (a :: (p' ++ sep ++ q)) := by
      have h00 := hfirst 0 (by simp)
      simpa using h00
    have hcond : ¬ (sep ≠ [] ∧ sep.isPrefixOf (a :: (p' ++ sep ++ q))) := by
      rintro ⟨-, hpre⟩
      exact h0 (List.isPrefixOf_iff_prefix.mp hpre)
    rw [show (a :: p') ++ sep ++ q = a :: (p' ++ sep ++ q) by simp]
    rw [jsSplitAux, if_neg hcond]
    have hrec := ih q (fun i hi => by
      have hstep := hfirst (i+1) (by simpa using Nat.succ_lt_succ hi)
      simpa using hstep)
    rw [hrec]
    simp

theorem replaceAllJS_of_not_infix (t r s : List Char) (ht : t ≠ []) (h : ¬ t <:+: s) :
    replaceAllJS t r s = s := by
  rw [replaceAllJS, jsSplit, if_neg ht, jsSplitAux_of_not_infix t ht s h]
  rfl

theorem replaceAllJS_first_occ (t r p q : List Char) (ht : t ≠ [])
    (hfirst : ∀ i, i < p.length → ¬ t <+: (p ++ t ++ q).drop i) :
    replaceAllJS t r (p ++ t ++ q) = p ++ r ++ replaceAllJS t r q := by
  rw [replaceAllJS, jsSplit, if_neg ht, jsSplitAux_first_occ t ht p q hfirst,
    joinWith_cons_of_ne_nil _ _ _ (jsSplitAux_ne_nil t q), replaceAllJS, jsSplit, if_neg ht]

theorem infix_of_prefix_drop {q l : List Char} {k : Nat} (h : q <+: l.drop k) :
    q <:+: l := by
  obtain ⟨t, ht⟩ := h
  exact ⟨l.take k, t, by rw [List.append_assoc, ht, List.take_append_drop]⟩

theorem infix_iff_exists_drop {q l : List Char} :
    q <:+: l ↔ ∃ i, q <+: l.drop i := by
  constructor
  · rintro ⟨a, b, rfl⟩
    exact ⟨a.length, by rw [List.append_assoc, List.drop_left]; exact ⟨b, rfl⟩⟩
  · rintro ⟨i, hi⟩
    exact infix_of_prefix_drop hi

theorem prefix_of_append_of_le {q x y : List Char} (h : q <+: x ++ y)
    (hl : q.length ≤ x.length) : q <+: x := by
  rw [List.prefix_iff_eq_take] at h ⊢
  rw [h, List.take_append_eq_append_take, Nat.sub_eq_zero_of_le hl]
  simp

/-- Decomposition of an occurrence inside an append: the occurrence lies in
the left part, in the right part, or genuinely spans the boundary. -/
theorem infix_append_cases {q x y : List Char} (h : q <:+: x ++ y) :
    q <:+: x ∨ q <:+: y ∨
      ∃ q1 q2, q = q1 ++ q2 ∧ q1 ≠ [] ∧ q2 ≠ [] ∧ q1 <:+ x ∧ q2 <+: y := by
  obtain ⟨a, b, hab⟩ := h
  by_cases hi : x.length ≤ a.length
  · right; left
    have hq : q <+: (x ++ y).drop a.length := by
      rw [← hab, List.append_assoc, List.drop_left]
      exact ⟨b, rfl⟩
    rw [List.drop_append_eq_append_drop, List.drop_eq_nil_iff.mpr hi, List.nil_append] at hq
    exact infix_of_prefix_drop hq
  · push_neg at hi
    have hq : q <+: x.drop a.length ++ y := by
      have hq0 : q <+: (x ++ y).drop a.length := by
        rw [← hab, List.append_assoc, List.drop_left]
        exact ⟨b, rfl⟩
      rwa [List.drop_append_eq_append_drop, Nat.sub_eq_zero_of_le (le_of_lt hi),
        List.drop_zero] at hq0
    by_cases hlen : q.length ≤ x.length - a.length
    · left
      exact infix_of_prefix_drop
        (prefix_of_append_of_le hq (by rw [List.length_drop]; exact hlen))
    · right; right
      push_neg at hlen
      obtain ⟨t, ht⟩ := hq
      have hxdl : (x.drop a.length).length = x.length - a.length := List.length_drop _ _
      have hsplit : q.take (x.length - a.length) ++ (q.drop (x.length - a.length) ++ t)
          = x.drop a.length ++ y := by
        rw [← List.append_assoc, List.take_append_drop]
        exact ht
      have hlens : (q.take (x.length - a.length)).length = (x.drop a.length).length := by
        rw [List.length_take, hxdl, inf_eq_min]
        exact min_eq_left (le_of_lt hlen)
      have hinj := List.append_inj hsplit hlens
      refine ⟨q.take (x.length - a.length), q.drop (x.length - a.length),
        (List.take_append_drop _ q).symm, ?_, ?_, ?_, ?_⟩
      · intro hnil
        rw [hinj.1] at hnil
        have hlen0 := congrArg List.length hnil
        rw [hxdl] at hlen0
        simp at hlen0
        omega
      · intro hnil
        rw [List.drop_eq_nil_iff] at hnil
        omega
      · rw [hinj.1]
        exact List.drop_suffix _ _
      · exact ⟨t, hinj.2⟩

/-- If a non-empty pattern `q` shares no character with the glue `r`, does
not occur in any piece, and `r` is non-empty, then `q` does not occur in
the joined result: an occurrence would have to lie inside a piece, inside
the glue, or span a boundary, and each case is impossible. -/
theorem not_infix_joinWith (q r : List Char) (hq : q ≠ []) (hr : r ≠ [])
    (hdisj : ∀ c ∈ r, c ∉ q) :
    ∀ ps : List (List Char), (∀ p ∈ ps, ¬ q <:+: p) → ¬ q <:+: joinWith r ps := by
  intro ps
  induction ps with
  | nil =>
    intro _ hinf
    exact hq (List.sublist_nil.mp hinf.sublist)
  | cons p ps ih =>
    intro hps
    cases ps with
    | nil => exact hps p (List.mem_cons_self _ _)
    | cons p2 ps' =>
      intro hinf
      rw [joinWith, List.append_assoc] at hinf
      have hJ : ¬ q <:+: joinWith r (p2 :: ps') :=
        ih (fun x hx => hps x (List.mem_cons_of_mem _ hx))
      rcases infix_append_cases hinf with h1 | h1 | h1
      · exact hps p (List.mem_cons_self _ _) h1
      · rcases infix_append_cases h1 with h2 | h2 | h2
        · obtain ⟨c, hc⟩ := List.exists_mem_of_ne_nil q hq
          exact hdisj c (h2.sublist.subset hc) hc
        · exact hJ h2
        · obtain ⟨q1, q2, hq12, hq1ne, hq2ne, hq1suf, hq2pre⟩ := h2
          obtain ⟨c, hc⟩ := List.exists_mem_of_ne_nil q1 hq1ne
          have hcr : c ∈ r := hq1suf.sublist.subset hc
          have hcq : c ∈ q := by rw [hq12]; exact List.mem_append_left _ hc
          exact hdisj c hcr hcq
      · obtain ⟨q1, q2, hq12, hq1ne, hq2ne, hq1suf, hq2pre⟩ := h1
        cases q2 with
        | nil => exact hq2ne rfl
        | cons c2 q2' =>
          cases hrc : r with
          | nil => exact hr hrc
          | cons rc r' =>
            obtain ⟨t, ht⟩ := hq2pre
            rw [hrc] at ht
            have hceq : c2 = rc := (List.cons_eq_cons.mp (by simpa using ht)).1
            have hcr : c2 ∈ r := by rw [hrc, hceq]; exact List.mem_cons_self _ _
            have hcq : c2 ∈ q := by
              rw [hq12]
              exact List.mem_append_right _ (List.mem_cons_self _ _)
            exact hdisj c2 hcr hcq

/-- After globally replacing `t` by a non-empty replacement `r` that shares
no character with `t`, no occurrence of `t` is left in the result. -/
theorem not_infix_replaceAllJS_self (t r s : List Char) (ht : t ≠ []) (hr : r ≠ [])
    (hdisj : ∀ c ∈ r, c ∉ t) : ¬ t <:+: replaceAllJS t r s := by
  rw [replaceAllJS, jsSplit, if_neg ht]
  exact not_infix_joinWith t r ht hr hdisj _
    (fun p hp => jsSplitAux_pieces_no_occ t ht s.length s le_rfl p hp)

/-- Folding the render step over entities none of which is active leaves
the working text unchanged. -/
theorem foldl_renderStep_skip (active : List Nat) (l : List PiiEntity) (t : List Char)
    (h : ∀ e ∈ l, e.id ∉ active) :
    l.foldl (renderStep active) t = t := by
  induction l generalizing t with
  | nil => rfl
  | cons e l ih =>
    rw [List.foldl_cons, renderStep, if_neg (h e (List.mem_cons_self _ _))]
    exact ih t (fun x hx => h x (List.mem_cons_of_mem _ hx))

/-- When every entity is active, the render fold is the plain replacement
fold of `analyzeText`. -/
theorem foldl_renderStep_all_active (active : List Nat) (l : List PiiEntity) (t : List Char)
    (h : ∀ e ∈ l, e.id ∈ active) :
    l.foldl (renderStep active) t
      = l.foldl (fun acc e => replaceAllJS e.text e.replacement acc) t := by
  induction l generalizing t with
  | nil => rfl
  | cons e l ih =>
    rw [List.foldl_cons, List.foldl_cons, renderStep, if_pos (h e (List.mem_cons_self _ _))]
    exact ih _ (fun x hx => h x (List.mem_cons_of_mem _ hx))

theorem insertByLen_perm (e : PiiEntity) (l : List PiiEntity) :
    (insertByLen e l).Perm (e :: l) := by
  induction l with
  | nil => exact List.Perm.refl _
  | cons b l ih =>
    rw [insertByLen]
    split
    · exact (ih.cons b).trans (List.Perm.swap _ _ _)
    · exact List.Perm.refl _

theorem sortByTextLenDesc_perm (l : List PiiEntity) : (sortByTextLenDesc l).Perm l := by
  suffices h : ∀ acc, (l.foldl (fun acc e => insertByLen e acc) acc).Perm (acc ++ l) by
    simpa using h []
  induction l with
  | nil => intro acc; simp
  | cons e l ih =>
    intro acc
    rw [List.foldl_cons]
    exact (ih _).trans (((insertByLen_perm e acc).append_right l).trans List.perm_middle.symm)

theorem insertByLen_append_of_all_ge (e : PiiEntity) (acc : List PiiEntity)
    (h : ∀ b ∈ acc, e.text.length ≤ b.text.length) :
    insertByLen e acc = acc ++ [e] := by
  induction acc with
  | nil => rfl
  | cons b l ih =>
    rw [insertByLen, if_pos (h b (List.mem_cons_self _ _)),
      ih (fun x hx => h x (List.mem_cons_of_mem _ hx))]
    rfl

/-- On an input already sorted by non-increasing text length, the stable
sort is the identity. -/
theorem sortByTextLenDesc_of_sorted (l : List PiiEntity)
    (h : List.Pairwise (fun a b => b.text.length ≤ a.text.length) l) :
    sortByTextLenDesc l = l := by
  suffices hgen : ∀ (l acc : List PiiEntity),
      List.Pairwise (fun a b => b.text.length ≤ a.text.length) (acc ++ l) →
      l.foldl (fun acc e => insertByLen e acc) acc = acc ++ l by
    simpa using hgen l [] (by simpa using h)
  intro l
  induction l with
  | nil => intro acc _; simp
  | cons e l ih =>
    intro acc hp
    rw [List.foldl_cons]
    have hins : insertByLen e acc = acc ++ [e] :=
      insertByLen_append_of_all_ge e acc
        (fun b hb => (List.pairwise_append.mp hp).2.2 b hb e (List.mem_cons_self _ _))
    rw [hins, ih (acc ++ [e]) (by simpa using hp)]
    simp

theorem countP_eq_one_exists {α : Type} (l : List α) (pb : α → Bool)
    (h : l.countP pb = 1) :
    ∃ x, x ∈ l ∧ pb x ∧ ∀ y ∈ l, pb y → y = x := by
  induction l with
  | nil => simp [List.countP_nil] at h
  | cons a l ih =>
    by_cases ha : pb a = true
    · rw [List.countP_cons, if_pos ha] at h
      have hl : l.countP pb = 0 := by omega
      refine ⟨a, List.mem_cons_self _ _, ha, ?_⟩
      intro y hy hpy
      rcases List.mem_cons.mp hy with rfl | hy
      · rfl
      · have := List.countP_eq_zero.mp hl y hy
        simp [hpy] at this
    · rw [List.countP_cons, if_neg ha] at h
      have h' : l.countP pb = 1 := by omega
      obtain ⟨x, hx, hpx, huniq⟩ := ih h'
      refine ⟨x, List.mem_cons_of_mem _ hx, hpx, ?_⟩
      intro y hy hpy
      rcases List.mem_cons.mp hy with rfl | hy
      · simp [hpy] at ha
      · exact huniq y hy hpy

/-- "Occurs exactly once" pins down a unique start position. -/
theorem occCount_one_unique (t s : List Char) (ht : t ≠ []) (h : occCount t s = 1) :
    ∃ i, t <+: s.drop i ∧ ∀ j, t <+: s.drop j → j = i := by
  obtain ⟨i, hmem, hpi, huniq⟩ := countP_eq_one_exists _ _ h
  refine ⟨i, of_decide_eq_true hpi, ?_⟩
  intro j hj
  have hjlen : j ≤ s.length := by
    by_contra hgt
    push_neg at hgt
    rw [List.drop_eq_nil_iff.mpr (le_of_lt hgt)] at hj
    obtain ⟨u, hu⟩ := hj
    exact ht (List.append_eq_nil.mp hu).1
  exact huniq j (List.mem_range.mpr (Nat.lt_succ_of_le hjlen)) (decide_eq_true hj)

/-- Global replacement on a text with exactly one occurrence of the
pattern replaces that occurrence and changes nothing else. -/
theorem replaceAllJS_single_occ (t r s : List Char) (ht : t ≠ [])
    (h : occCount t s = 1) :
    ∃ p q, s = p ++ t ++ q ∧ replaceAllJS t r s = p ++ r ++ q := by
  obtain ⟨i, hi, huniq⟩ := occCount_one_unique t s ht h
  obtain ⟨q, hq⟩ := hi
  have hile : i ≤ s.length := by
    by_contra hgt
    push_neg at hgt
    rw [List.drop_eq_nil_iff.mpr (le_of_lt hgt)] at hq
    exact ht (List.append_eq_nil.mp hq).1
  have hs : s = s.take i ++ t ++ q := by
    rw [List.append_assoc, hq, List.take_append_drop]
  have hplen : (s.take i).length = i := by
    rw [List.length_take, inf_eq_min]
    exact min_eq_left hile
  have hfirst : ∀ j, j < (s.take i).length → ¬ t <+: (s.take i ++ t ++ q).drop j := by
    intro j hj hpre
    rw [← hs] at hpre
    have := huniq j hpre
    omega
  have htlen : t.length ≠ 0 := fun h0 => ht (List.eq_nil_of_length_eq_zero h0)
  have hafter : ¬ t <:+: q := by
    intro hinf
    obtain ⟨j, hj⟩ := infix_iff_exists_drop.mp hinf
    have hdropq : s.drop (i + t.length + j) = q.drop j := by
      conv_lhs => rw [hs]
      rw [List.append_assoc, List.drop_append_eq_append_drop,
        List.drop_eq_nil_iff.mpr (by simp [hplen]; omega), List.nil_append,
        List.drop_append_eq_append_drop,
        List.drop_eq_nil_iff.mpr (by simp [hplen]; omega), List.nil_append]
      congr 1
      simp [hplen]
      omega
    have hocc : t <+: s.drop (i + t.length + j) := by rw [hdropq]; exact hj
    have := huniq _ hocc
    omega
  refine ⟨s.take i, q, hs, ?_⟩
  conv_lhs => rw [hs]
  rw [replaceAllJS_first_occ t r _ q ht hfirst, replaceAllJS_of_not_infix t r q ht hafter]

/-- Rendering with a single active id, under distinct entity ids, applies
exactly that entity's global replacement. -/
theorem dynamicSanitizedText_single (res : AnalysisResult) (e : PiiEntity)
    (hmem : e ∈ res.entities)
    (hids : List.Pairwise (fun a b => a.id ≠ b.id) res.entities) :
    dynamicSanitizedText res [e.id]
      = replaceAllJS e.text e.replacement res.originalText := by
  rw [dynamicSanitizedText]
  have hperm := sortByTextLenDesc_perm res.entities
  have hmem2 : e ∈ sortByTextLenDesc res.entities := hperm.mem_iff.mpr hmem
  have hids2 : List.Pairwise (fun a b => a.id ≠ b.id) (sortByTextLenDesc res.entities) :=
    (hperm.pairwise_iff (fun hxy => Ne.symm hxy)).mpr hids
  obtain ⟨l1, l2, hsplit⟩ := List.append_of_mem hmem2
  rw [hsplit]
  rw [hsplit] at hids2
  obtain ⟨hpl1, hpe, hcross⟩ := List.pairwise_append.mp hids2
  have hskip1 : ∀ x ∈ l1, x.id ∉ [e.id] := by
    intro x hx hmemx
    simp at hmemx
    exact hcross x hx e (List.mem_cons_self _ _) hmemx
  have hskip2 : ∀ x ∈ l2, x.id ∉ [e.id] := by
    intro x hx hmemx
    simp at hmemx
    exact (List.pairwise_cons.mp hpe).1 x hx hmemx.symm
  rw [List.foldl_append, foldl_renderStep_skip _ _ _ hskip1, List.foldl_cons,
    renderStep, if_pos (by simp)]
  exact foldl_renderStep_skip _ _ _ hskip2

/-- On an already length-sorted entity list, rendering with every id
active is the plain replacement fold of `analyzeText`. -/
theorem render_all_active_of_sorted (res : AnalysisResult)
    (hsorted : List.Pairwise (fun a b => b.text.length ≤ a.text.length) res.entities) :
    dynamicSanitizedText res (res.entities.map PiiEntity.id)
      = sanitizeFold res.entities res.originalText := by
  rw [dynamicSanitizedText, sortByTextLenDesc_of_sorted _ hsorted, sanitizeFold]
  exact foldl_renderStep_all_active _ _ _ (fun e he => List.mem_map_of_mem _ he)

theorem normalizeEntity_text (n : Nat) (raw : RawEntity) :
    (normalizeEntity n raw).text = raw.text := rfl

theorem normalizeEntity_level (n : Nat) (raw : RawEntity) :
    (normalizeEntity n raw).level = mapStringToSensitivity raw.sensitivity := rfl

/-- Normalization preserves, per text value, exactly the backend entities
and their mapped levels. -/
theorem filter_map_normalize (l : List (Nat × RawEntity)) (t : List Char) :
    (((l.map (fun ie => normalizeEntity ie.1 ie.2)).filter
        (fun e => decide (e.text = t))).map PiiEntity.level)
      = (((l.map Prod.snd).filter (fun raw => decide (raw.text = t))).map
          (fun raw => mapStringToSensitivity raw.sensitivity)) := by
  induction l with
  | nil => rfl
  | cons ie l ih =>
    obtain ⟨n, raw⟩ := ie
    simp only [List.map_cons, List.filter_cons]
    by_cases hmatch : raw.text = t
    · simp [normalizeEntity_text, normalizeEntity_level, hmatch, ih]
    · simp [normalizeEntity_text, hmatch, ih]

/-- C1: the claim states that on backend failure the returned entity list
equals the Pattern Matcher's output for the enabled rules.  It does not:
the fallback result of `analyzeText` always carries an empty entity list,
while the (spec-modelled) Pattern Matcher on the enabled literal rule
`SECRET` over the text `SECRET` produces one match.  The risk-score-0 and
classification-"Error" parts of the claim do hold. -/
theorem C1_counterexample :
    ((analyzeText "SECRET".data (BackendOutcome.err "boom".data)).entities.map
          (fun e => (e.text, e.level)))
        ≠ ((patternMatcherLiteral [secretRule] "SECRET".data).map
          (fun m => (m.text, m.level)))
      ∧ (analyzeText "SECRET".data (BackendOutcome.err "boom".data)).riskScore = 0
      ∧ (analyzeText "SECRET".data (BackendOutcome.err "boom".data)).classification
          = "Error".data := by
  decide

/-- C1 (amended): for every input text, whenever the inference call fails
in any way, `analyzeText` still returns normally with a result whose risk
score is 0, whose classification is "Error", whose summary reports the
failure, and whose entity list is empty — the scan pipeline never consults
the pattern rules, so no pattern-matcher hits are available to return. -/
theorem C1_fallback_degraded (text msg : List Char) :
    analyzeText text (BackendOutcome.err msg) =
      { originalText := text
        sanitizedText := text
        entities := []
        riskScore := 0
        processingTime := 0
        summary := "Analysis failed: ".data ++ msg
        classification := "Error".data } := rfl

/-- C5: the claim states that entity offsets are resolved to the first
occurrence and that `text = originalText[start:end]`.  They are not: the
scan stores the placeholders `start = end = 0`, so for the email entity
the slice `originalText[0:0]` is empty and differs from the entity text,
and the first occurrence of the text is at offset 5, not 0. -/
theorem C5_counterexample :
    ((analyzeText "mail a@b.com".data (BackendOutcome.ok emailPayload)).entities.map
        (fun e => (e.start, e.endPos, e.text)))
        = [(0, 0, "a@b.com".data)]
      ∧ ¬ ("a@b.com".data = (("mail a@b.com".data).take 0).drop 0)
      ∧ "a@b.com".data <+: ("mail a@b.com".data).drop 5
      ∧ ¬ "a@b.com".data <+: ("mail a@b.com".data).drop 0 := by
  decide

/-- C5 (amended): every entity produced by a scan carries the placeholder
offsets `start = end = 0`; in particular `start ≤ end` and both lie within
the bounds of the original text, but the offsets are not resolved to the
first occurrence and the slice invariant fails for non-empty texts. -/
theorem C5_placeholder_offsets (text : List Char) (outcome : BackendOutcome)
    (e : PiiEntity) (hmem : e ∈ (analyzeText text outcome).entities) :
    e.start = 0 ∧ e.endPos = 0 ∧ e.start ≤ e.endPos := by
  cases outcome with
  | err msg => simp [analyzeText] at hmem
  | ok data =>
    have hmem2 : e ∈ normalizeEntities data.entities := hmem
    rw [normalizeEntities] at hmem2
    obtain ⟨ie, hie, rfl⟩ := List.mem_map.mp hmem2
    simp [normalizeEntity]

/-- C5 witness: the amended statement applied to a concrete scan. -/
theorem C5_placeholder_offsets_witness :
    ∃ e : PiiEntity,
      e ∈ (analyzeText "mail a@b.com".data (BackendOutcome.ok emailPayload)).entities
        ∧ e.start = 0 ∧ e.endPos = 0 ∧ e.start ≤ e.endPos := by
  refine ⟨normalizeEntity 0
      { text := "a@b.com".data, type := some "EMAIL".data,
        sensitivity := some "MEDIUM".data, replacement := some "[EMAIL]".data },
    by decide, ?_⟩
  exact C5_placeholder_offsets "mail a@b.com".data (BackendOutcome.ok emailPayload) _
    (by decide)

/-- C6: the claim states that a pattern-rule match and a backend entity
with identical text are reconciled into one entity carrying the higher of
the two levels.  No such reconciliation exists: with an enabled HIGH email
rule matching `a@b.com` and a backend entity for the same text at MEDIUM,
the scan's entity list keeps the backend entity at MEDIUM — the (spec-
modelled) pattern match and its HIGH level are never merged in. -/
theorem C6_counterexample :
    ((analyzeText "Contact a@b.com".data (BackendOutcome.ok emailPayload)).entities.map
        (fun e => (e.text, e.level)))
        = [("a@b.com".data, SensitivityLevel.MEDIUM)]
      ∧ ((patternMatcherLiteral [emailRule] "Contact a@b.com".data).map
          (fun m => (m.text, m.level)))
          = [("a@b.com".data, SensitivityLevel.HIGH)]
      ∧ SensitivityLevel.MEDIUM ≠ SensitivityLevel.HIGH := by
  decide

/-- C6 (amended): the scan's entity list is exactly the normalized backend
entity list — for every text value, the entities with that text and their
levels are those of the backend payload (via the sensitivity mapping),
regardless of any pattern rule; no cross-source merge or dedup occurs. -/
theorem C6_no_reconciliation (text : List Char) (data : RawPayload) (t : List Char) :
    (((analyzeText text (BackendOutcome.ok data)).entities.filter
        (fun e => decide (e.text = t))).map PiiEntity.level)
      = ((data.entities.filter (fun raw => decide (raw.text = t))).map
          (fun raw => mapStringToSensitivity raw.sensitivity)) := by
  show (((normalizeEntities data.entities).filter _).map _) = _
  rw [normalizeEntities, filter_map_normalize, List.enum_map_snd]

/-- C7: the claim universally maps any label containing "KEY" or "TOKEN"
to API_KEY and any label containing "CARD" to CREDIT_CARD; the label
`TOKEN CARD` contains both, and the code maps it to CREDIT_CARD because
the keyword tests run in a fixed priority order — so the "KEY"/"TOKEN"
clause of the claim is false as stated. -/
theorem C7_counterexample :
    mapStringToPiiType (some "TOKEN CARD".data) = PiiType.CREDIT_CARD
      ∧ "TOKEN".data <:+: jsToUpper "TOKEN CARD".data
      ∧ PiiType.CREDIT_CARD ≠ PiiType.API_KEY := by
  decide

/-- C7 (amended): normalization is by case-insensitive substring matching
tried in a fixed priority order (EMAIL, PHONE, CARD, SSN, KEY or TOKEN,
IP, NAME or PERSON, LOC or ADDRESS): a label containing "CARD" maps to
CREDIT_CARD provided no earlier keyword occurs; a label containing "KEY"
or "TOKEN" maps to API_KEY provided no earlier keyword occurs; a label
containing none of the keywords maps to CUSTOM; a missing or empty
sensitivity label maps to LOW. -/
theorem C7_priority_order :
    (∀ s : List Char,
        "CARD".data <:+: jsToUpper s →
        ¬ "EMAIL".data <:+: jsToUpper s →
        ¬ "PHONE".data <:+: jsToUpper s →
        mapStringToPiiType (some s) = PiiType.CREDIT_CARD)
      ∧ (∀ s : List Char,
          ("KEY".data <:+: jsToUpper s ∨ "TOKEN".data <:+: jsToUpper s) →
          ¬ "EMAIL".data <:+: jsToUpper s →
          ¬ "PHONE".data <:+: jsToUpper s →
          ¬ "CARD".data <:+: jsToUpper s →
          ¬ "SSN".data <:+: jsToUpper s →
          mapStringToPiiType (some s) = PiiType.API_KEY)
      ∧ (∀ s : List Char,
          ¬ "EMAIL".data <:+: jsToUpper s →
          ¬ "PHONE".data <:+: jsToUpper s →
          ¬ "CARD".data <:+: jsToUpper s →
          ¬ "SSN".data <:+: jsToUpper s →
          ¬ "KEY".data <:+: jsToUpper s →
          ¬ "TOKEN".data <:+: jsToUpper s →
          ¬ "IP".data <:+: jsToUpper s →
          ¬ "NAME".data <:+: jsToUpper s →
          ¬ "PERSON".data <:+: jsToUpper s →
          ¬ "LOC".data <:+: jsToUpper s →
          ¬ "ADDRESS".data <:+: jsToUpper s →
          mapStringToPiiType (some s) = PiiType.CUSTOM)
      ∧ mapStringToSensitivity none = SensitivityLevel.LOW
      ∧ mapStringToSensitivity (some []) = SensitivityLevel.LOW := by
  refine ⟨?_, ?_, ?_, rfl, rfl⟩
  · intro s hcard hmail hphone
    have hs : s ≠ [] := by
      intro h0
      rw [h0] at hcard
      exact absurd (List.sublist_nil.mp hcard.sublist) (by decide)
    rw [mapStringToPiiType]
    simp only [if_neg hs, if_neg hmail, if_neg hphone, if_pos hcard]
  · intro s hkey hmail hphone hcard hssn
    have hs : s ≠ [] := by
      intro h0
      rw [h0] at hkey
      rcases hkey with hk | hk
      · exact absurd (List.sublist_nil.mp hk.sublist) (by decide)
      · exact absurd (List.sublist_nil.mp hk.sublist) (by decide)
    rw [mapStringToPiiType]
    simp only [if_neg hs, if_neg hmail, if_neg hphone, if_neg hcard, if_neg hssn,
      if_pos hkey]
  · intro s hmail hphone hcard hssn hkey htoken hip hname hperson hloc haddr
    by_cases hs : s = []
    · subst hs
      rfl
    · rw [mapStringToPiiType]
      have hkt : ¬ ("KEY".data <:+: jsToUpper s ∨ "TOKEN".data <:+: jsToUpper s) := by
        rintro (h | h)
        · exact hkey h
        · exact htoken h
      have hnp : ¬ ("NAME".data <:+: jsToUpper s ∨ "PERSON".data <:+: jsToUpper s) := by
        rintro (h | h)
        · exact hname h
        · exact hperson h
      have hla : ¬ ("LOC".data <:+: jsToUpper s ∨ "ADDRESS".data <:+: jsToUpper s) := by
        rintro (h | h)
        · exact hloc h
        · exact haddr h
      simp only [if_neg hs, if_neg hmail, if_neg hphone, if_neg hcard, if_neg hssn,
        if_neg hkt, if_neg hip, if_neg hnp, if_neg hla]

/-- C7 witness: the amended clauses applied to concrete labels. -/
theorem C7_priority_order_witness :
    mapStringToPiiType (some "credit card".data) = PiiType.CREDIT_CARD
      ∧ mapStringToPiiType (some "api token".data) = PiiType.API_KEY
      ∧ mapStringToPiiType (some "mystery".data) = PiiType.CUSTOM :=
  ⟨C7_priority_order.1 "credit card".data (by decide) (by decide) (by decide),
   C7_priority_order.2.1 "api token".data (Or.inr (by decide)) (by decide) (by decide)
     (by decide) (by decide),
   C7_priority_order.2.2.1 "mystery".data (by decide) (by decide) (by decide) (by decide)
     (by decide) (by decide) (by decide) (by decide) (by decide) (by decide) (by decide)⟩

/-- C10: rendering with an empty active set is the identity on the
original text: no entity is replaced, every fold step skips. -/
theorem C10_empty_active_identity (res : AnalysisResult) :
    dynamicSanitizedText res [] = res.originalText := by
  rw [dynamicSanitizedText]
  exact foldl_renderStep_skip [] _ _ (fun e _ hmem => by simp at hmem)

/-- C2: render over both ids CAN produce a partially-redacted fragment of
the longer entity's match, so the claim is false as stated: with the long
entity's backend-suggested replacement echoing its own text, the output is
exactly the longer match with the shorter entity's text replaced inside
it. -/
theorem C2_counterexample :
    dynamicSanitizedText echoResult [0, 1] = "[PHONE]-1234".data
      ∧ (replaceAllJS "555".data "[PHONE]".data "555-1234".data)
          <:+: dynamicSanitizedText echoResult [0, 1]
      ∧ replaceAllJS "555".data "[PHONE]".data "555-1234".data ≠ "555-1234".data
      ∧ "555".data <:+: "555-1234".data
      ∧ phoneShort.text = "555".data
      ∧ phoneLongEcho.text = "555-1234".data := by
  decide

/-- C2 (amended): with both entities active and the shorter text a proper
substring of the longer, render replaces the longer entity first, and —
provided the longer entity's replacement is non-empty and shares no
character with the longer text (in particular it does not contain the
shorter text, which the counterexample shows is necessary) — after that
first pass no occurrence of the longer text remains, so the shorter
entity's pass cannot partially redact any occurrence of the longer
match. -/
theorem C2_longer_first_and_no_leftover (res : AnalysisResult) (e1 e2 : PiiEntity)
    (hent : res.entities = [e1, e2])
    (hsub : e1.text <:+: e2.text) (hne : e1.text ≠ e2.text)
    (hr2 : e2.replacement ≠ [])
    (hdisj : ∀ c ∈ e2.replacement, c ∉ e2.text) :
    dynamicSanitizedText res [e1.id, e2.id]
        = replaceAllJS e1.text e1.replacement
            (replaceAllJS e2.text e2.replacement res.originalText)
      ∧ ¬ e2.text <:+: replaceAllJS e2.text e2.replacement res.originalText := by
  have hlen : e1.text.length < e2.text.length := by
    rcases Nat.lt_or_ge e1.text.length e2.text.length with h | h
    · exact h
    · have hle := hsub.sublist.length_le
      exact absurd (hsub.eq_of_length (le_antisymm hle h)) hne
  have ht2 : e2.text ≠ [] := by
    intro h0
    rw [h0] at hsub
    exact hne ((List.sublist_nil.mp hsub.sublist).trans h0.symm)
  constructor
  · rw [dynamicSanitizedText, hent]
    have hsort : sortByTextLenDesc [e1, e2] = [e2, e1] := by
      show insertByLen e2 (insertByLen e1 []) = [e2, e1]
      rw [show insertByLen e1 [] = [e1] from rfl, insertByLen,
        if_neg (not_le.mpr hlen)]
    rw [hsort]
    simp [renderStep]
  · exact not_infix_replaceAllJS_self _ _ _ ht2 hr2 hdisj

/-- C2 witness: the amended statement applied to the spec's phone example
with the usual bracket replacements. -/
theorem C2_longer_first_and_no_leftover_witness :
    (phoneShort.text <:+: phoneLong.text ∧ phoneShort.text ≠ phoneLong.text
        ∧ phoneLong.replacement ≠ []
        ∧ (∀ c ∈ phoneLong.replacement, c ∉ phoneLong.text))
      ∧ (dynamicSanitizedText phoneResult [phoneShort.id, phoneLong.id]
            = replaceAllJS phoneShort.text phoneShort.replacement
                (replaceAllJS phoneLong.text phoneLong.replacement
                  phoneResult.originalText)
          ∧ ¬ phoneLong.text <:+:
              replaceAllJS phoneLong.text phoneLong.replacement
                phoneResult.originalText) :=
  ⟨by decide,
   C2_longer_first_and_no_leftover phoneResult phoneShort phoneLong rfl (by decide)
     (by decide) (by decide) (by decide)⟩

/-- C3: for an entity whose (non-empty) text occurs exactly once in the
original text, with the data model's distinct entity ids, rendering with
exactly that entity active yields the original text with the single
occurrence replaced by the entity's replacement and every other character
unchanged. -/
theorem C3_single_occurrence_render (res : AnalysisResult) (e : PiiEntity)
    (hmem : e ∈ res.entities)
    (hids : List.Pairwise (fun a b => a.id ≠ b.id) res.entities)
    (ht : e.text ≠ [])
    (hocc : occCount e.text res.originalText = 1) :
    ∃ p q, res.originalText = p ++ e.text ++ q
      ∧ dynamicSanitizedText res [e.id] = p ++ e.replacement ++ q := by
  obtain ⟨p, q, hs, hrep⟩ :=
    replaceAllJS_single_occ e.text e.replacement res.originalText ht hocc
  exact ⟨p, q, hs, by rw [dynamicSanitizedText_single res e hmem hids, hrep]⟩

/-- C3 witness: concrete single-occurrence render. -/
theorem C3_single_occurrence_render_witness :
    (emailEntity ∈ emailResult.entities
        ∧ emailEntity.text ≠ []
        ∧ occCount emailEntity.text emailResult.originalText = 1)
      ∧ ∃ p q, emailResult.originalText = p ++ emailEntity.text ++ q
          ∧ dynamicSanitizedText emailResult [emailEntity.id]
              = p ++ emailEntity.replacement ++ q :=
  ⟨by decide,
   C3_single_occurrence_render emailResult emailEntity (by decide) (by decide)
     (by decide) (by decide)⟩

/-- C4: the stored `sanitizedText` (computed by replacement in backend
entity order) can differ from the Redaction Engine's render with all
entities active (descending-length order): with texts `ab` then `abc` in
backend order over the text `abc`, the stored value is `Xc` while the
render yields `Y` — so the claimed equality is false. -/
theorem C4_counterexample :
    (analyzeText "abc".data (BackendOutcome.ok nestedPayload)).sanitizedText = "Xc".data
      ∧ dynamicSanitizedText (analyzeText "abc".data (BackendOutcome.ok nestedPayload))
          ((analyzeText "abc".data (BackendOutcome.ok nestedPayload)).entities.map
            PiiEntity.id)
          = "Y".data
      ∧ ("Xc".data : List Char) ≠ "Y".data := by
  decide

/-- C4 (amended): when the backend entity order already lists entities by
non-increasing text length, the stable descending-length sort is the
identity and the stored `sanitizedText` coincides with the render at the
all-ids active set (this also covers the degraded branch, whose entity
list is empty). -/
theorem C4_sorted_agreement (text : List Char) (outcome : BackendOutcome)
    (hsorted : List.Pairwise (fun a b => b.text.length ≤ a.text.length)
        (analyzeText text outcome).entities) :
    (analyzeText text outcome).sanitizedText
      = dynamicSanitizedText (analyzeText text outcome)
          ((analyzeText text outcome).entities.map PiiEntity.id) := by
  rw [render_all_active_of_sorted _ hsorted]
  cases outcome with
  | err msg => rfl
  | ok data => rfl

/-- C4 witness: agreement on a backend payload already in descending
text-length order. -/
theorem C4_sorted_agreement_witness :
    List.Pairwise (fun a b => b.text.length ≤ a.text.length)
        (analyzeText "abc".data (BackendOutcome.ok sortedPayload)).entities
      ∧ (analyzeText "abc".data (BackendOutcome.ok sortedPayload)).sanitizedText
          = dynamicSanitizedText
              (analyzeText "abc".data (BackendOutcome.ok sortedPayload))
              ((analyzeText "abc".data (BackendOutcome.ok sortedPayload)).entities.map
                PiiEntity.id) :=
  ⟨by decide,
   C4_sorted_agreement "abc".data (BackendOutcome.ok sortedPayload) (by decide)⟩

/-- C8: `handleSave` fails whenever the name is empty; it fails whenever a
provided (non-whitespace) pattern does not compile; the unbalanced pattern
of a single opening parenthesis is rejected; the project-id pattern with a
4-digit counted repetition is accepted, and the tester subsequently
matches `PROJ-1234` but not `PROJ-12`. -/
theorem C8_rule_validation :
    (∀ name pattern : List Char, name = [] → (handleSave name pattern).saved = false)
      ∧ (∀ name pattern : List Char,
          jsTrim pattern ≠ [] → jsRegexValid pattern = false →
          (handleSave name pattern).saved = false)
      ∧ jsRegexValid "(".data = false
      ∧ (handleSave "Internal Project ID".data "PROJ-\\d{4}".data).saved = true
      ∧ handleTestRegex "PROJ-\\d{4}".data "PROJ-1234".data = true
      ∧ handleTestRegex "PROJ-\\d{4}".data "PROJ-12".data = false := by
  refine ⟨?_, ?_, by decide, by decide, by decide, by decide⟩
  · intro name pattern h
    subst h
    simp [handleSave, jsTrim]
  · intro name pattern h1 h2
    have hd : decide (jsTrim pattern ≠ []) = true := decide_eq_true h1
    simp [handleSave, hd, h2]

/-- C8 witness: the universal validation clauses applied at concrete
inputs. -/
theorem C8_rule_validation_witness :
    (handleSave [] "x".data).saved = false
      ∧ (jsTrim "(".data ≠ [] ∧ (handleSave "Name".data "(".data).saved = false) :=
  ⟨C8_rule_validation.1 [] "x".data rfl,
   by decide,
   C8_rule_validation.2.1 "Name".data "(".data (by decide) (by decide)⟩

/-- C9: an invalid (non-empty, unparsable) local-engine URL blocks model
discovery but does NOT block scanning: the scan guard checks only that the
URL and the model are non-empty, so with an unparsable URL the generate
request is still attempted — the claim that both paths are blocked is
false. -/
theorem C9_counterexample :
    isValidUrlModel "::bad::".data = false
      ∧ ("::bad::".data : List Char) ≠ []
      ∧ fetchModelsAttemptsRequest "::bad::".data = false
      ∧ scanAttemptsOllamaRequest
          { url := "::bad::".data, model := "llama3".data, apiKey := none } = true := by
  decide

/-- C9 (amended): an invalid URL blocks model discovery (`fetchModels`
returns before issuing the request); the scan path attempts the local
request iff the URL and model are merely non-empty — well-formedness is
not checked there, the resulting failure being absorbed by the
orchestrator fallback. -/
theorem C9_invalid_url_blocks_discovery_only (url model : List Char)
    (key : Option (List Char))
    (hne : url ≠ []) (hinvalid : isValidUrlModel url = false) :
    fetchModelsAttemptsRequest url = false
      ∧ (scanAttemptsOllamaRequest { url := url, model := model, apiKey := key } = true
          ↔ model ≠ []) := by
  constructor
  · simp [fetchModelsAttemptsRequest, urlError, hne, hinvalid]
  · simp [scanAttemptsOllamaRequest, hne]

/-- C9 witness: the amended statement at a concrete malformed URL. -/
theorem C9_invalid_url_blocks_discovery_only_witness :
    (("::nope".data : List Char) ≠ [] ∧ isValidUrlModel "::nope".data = false)
      ∧ (fetchModelsAttemptsRequest "::nope".data = false
          ∧ (scanAttemptsOllamaRequest
              { url := "::nope".data, model := "m1".data, apiKey := none } = true
            ↔ ("m1".data : List Char) ≠ [])) :=
  ⟨by decide,
   C9_invalid_url_blocks_discovery_only "::nope".data "m1".data none
     (by decide) (by decide)⟩
